import Mathlib

/-! # WebProject: the task list of `script.js`

A shallow embedding of the classes `Task` and `TodoApp` of `script.js`, and
theorems about filtering, sorting, identifiers, editing, toggling, deleting,
loading and deadline labels.

Conventions of the embedding.

* A JavaScript number that results from a subtraction is an `Option Int`:
  `none` is `NaN`, `some n` the integer value `n`.
* The built-in functions whose result depends on tables outside the program
  are parameters: `String.prototype.toLowerCase` and the `Date` text reader are
  the fields of a `Host`, and `JSON.parse` is an argument of `loadTasks`; every
  theorem holds for every choice of them.
* `Array.prototype.sort` reads a `NaN` comparator result as `+0`, as ECMAScript
  prescribes. For a consistent comparator every stable sort returns the same
  array; for an inconsistent one ECMAScript leaves the order to the engine, and
  the embedding follows V8 (`CountAndMakeRun`, then `BinaryInsertionSort`).
* `localStorage` is one slot that accepts every write; the DOM and
  `renderTasks` are left out.
-/

namespace WebProject

/-! ## Built-ins -/

/-- A JavaScript number produced by this program: `none` is `NaN`. -/
abbrev JSNumber := Option Int

/-- Subtraction of two numbers, `x - y`; `NaN` when either operand is `NaN`. -/
def jsSub (x y : JSNumber) : JSNumber :=
  match x, y with
  | some a, some b => some (a - b)
  | _, _ => none

/-- The class `Task`: the fields its constructor assigns. A `deadline` of
`none` is `null`. -/
structure Task where
  id : String
  title : String
  description : String
  category : String
  priority : String
  deadline : Option String
  completed : Bool
  createdAt : String
deriving DecidableEq, Repr

/-- Built-ins that are taken as given. -/
structure Host where
  /-- The method `String.prototype.toLowerCase`. -/
  toLowerCase : String → String
  /-- The time value of `new Date(text)` in milliseconds, `none` for an invalid date. -/
  dateParse : String → Option Int

/-- Truthiness of a string: every string but the empty one. -/
def truthy (s : String) : Bool := s != ""

/-- Truthiness of a value that is `null` or a string. -/
def truthyOpt : Option String → Bool
  | none => false
  | some s => truthy s

/-- Whether `needle` starts the character list `hay`. -/
def startsWithChars : List Char → List Char → Bool
  | [], _ => true
  | _ :: _, [] => false
  | c :: cs, d :: ds => c == d && startsWithChars cs ds

/-- Whether `needle` occurs in the character list `hay` as a contiguous run. -/
def includesChars (needle : List Char) : List Char → Bool
  | [] => startsWithChars needle []
  | d :: ds => startsWithChars needle (d :: ds) || includesChars needle ds

/-- The method `String.prototype.includes`. -/
def includes (hay needle : String) : Bool := includesChars needle.data hay.data

/-- The characters `String.prototype.trim` removes: ECMAScript's WhiteSpace and
LineTerminator code points. -/
def isTrimChar (c : Char) : Bool :=
  let n := c.toNat
  n == 0x9 || n == 0xA || n == 0xB || n == 0xC || n == 0xD || n == 0x20 || n == 0xA0 ||
    n == 0x1680 || (0x2000 ≤ n && n ≤ 0x200A) || n == 0x2028 || n == 0x2029 ||
    n == 0x202F || n == 0x205F || n == 0x3000 || n == 0xFEFF

/-- The method `String.prototype.trim`. -/
def trim (s : String) : String :=
  String.mk ((s.data.dropWhile isTrimChar).reverse.dropWhile isTrimChar).reverse

/-- The decimal digits of a natural number, as `Number.prototype.toString` writes
an integer below `10 ^ 21`. -/
def natToString (n : Nat) : String := String.mk (Nat.toDigits 10 n)

/-- The method `Number.prototype.toString` on an integer below `10 ^ 21` in
absolute value. -/
def intToString (n : Int) : String :=
  if n < 0 then String.mk (Char.ofNat 45 :: Nat.toDigits 10 n.natAbs) else natToString n.natAbs

/-- The text `QuoteJSONString` writes for one character of a string. -/
def quoteJSONChar (c : Char) : List Char :=
  let n := c.toNat
  if n = 8 then [Char.ofNat 92, 'b']
  else if n = 9 then [Char.ofNat 92, 't']
  else if n = 10 then [Char.ofNat 92, 'n']
  else if n = 12 then [Char.ofNat 92, 'f']
  else if n = 13 then [Char.ofNat 92, 'r']
  else if n = 34 then [Char.ofNat 92, Char.ofNat 34]
  else if n = 92 then [Char.ofNat 92, Char.ofNat 92]
  else if n < 32 then
    [Char.ofNat 92, 'u', '0', '0', Nat.digitChar (n / 16), Nat.digitChar (n % 16)]
  else [c]

/-- The operation `QuoteJSONString`. -/
def quoteJSONString (s : String) : List Char :=
  Char.ofNat 34 :: (s.data.flatMap quoteJSONChar ++ [Char.ofNat 34])

/-- One member of an object, `"key":value`. -/
def jsonMember (key : String) (value : List Char) : List Char :=
  quoteJSONString key ++ ':' :: value

/-- The text `JSON.stringify` writes for one task. -/
def stringifyTask (t : Task) : List Char :=
  '{' :: (jsonMember "id" (quoteJSONString t.id) ++ ',' ::
    jsonMember "title" (quoteJSONString t.title) ++ ',' ::
    jsonMember "description" (quoteJSONString t.description) ++ ',' ::
    jsonMember "category" (quoteJSONString t.category) ++ ',' ::
    jsonMember "priority" (quoteJSONString t.priority) ++ ',' ::
    jsonMember "deadline"
      (match t.deadline with
       | none => "null".data
       | some d => quoteJSONString d) ++ ',' ::
    jsonMember "completed" (if t.completed then "true".data else "false".data) ++ ',' ::
    jsonMember "createdAt" (quoteJSONString t.createdAt) ++ ['}'])

/-- The function `JSON.stringify` on an array of tasks. -/
def jsonStringify (ts : List Task) : String :=
  String.mk ('[' :: ((ts.map stringifyTask).intersperse [',']).flatten ++ [']'])

/-! ## `Array.prototype.sort` -/

/-- How `sort` reads a comparator result: `NaN` counts as `+0`. -/
def sortOrder (v : JSNumber) : Int := v.getD 0

/-- The elements after `previous` that continue the run, and the elements left
over (the loop of V8's `CountAndMakeRun`): `current` continues a descending run
when `order < 0` and an ascending run when `order >= 0`, `order` being the
comparison of `current` with `previous`. -/
def takeRun {α : Type} (cmp : α → α → JSNumber) (descending : Bool) (previous : α) :
    List α → List α × List α
  | [] => ([], [])
  | current :: rest =>
    if decide (sortOrder (cmp current previous) < 0) = descending then
      (current :: (takeRun cmp descending current rest).1,
        (takeRun cmp descending current rest).2)
    else ([], current :: rest)

/-- V8's `CountAndMakeRun`: the run the array starts with, reversed when it is
descending, and the elements after it. -/
def countAndMakeRun {α : Type} (cmp : α → α → JSNumber) : List α → List α × List α
  | first :: second :: rest =>
    if sortOrder (cmp second first) < 0 then
      ((first :: second :: (takeRun cmp true second rest).1).reverse,
        (takeRun cmp true second rest).2)
    else
      (first :: second :: (takeRun cmp false second rest).1,
        (takeRun cmp false second rest).2)
  | xs => (xs, [])

/-- One step of V8's `BinaryInsertionSort`: `pivot` is put into the sorted front
`sorted` at the place a binary search finds. The search looks at the middle
element `mid` of the part still in question, goes on in the part before it when
`order < 0` and in the part after it otherwise, `order` being the comparison of
`pivot` with `mid`. `fuel` bounds the number of halvings. -/
def binaryInsert {α : Type} (cmp : α → α → JSNumber) (pivot : α) :
    Nat → List α → List α
  | 0, sorted => pivot :: sorted
  | fuel + 1, sorted =>
    match sorted.drop (sorted.length / 2) with
    | [] => [pivot]
    | mid :: after =>
      if sortOrder (cmp pivot mid) < 0 then
        binaryInsert cmp pivot fuel (sorted.take (sorted.length / 2)) ++ mid :: after
      else
        sorted.take (sorted.length / 2) ++ mid :: binaryInsert cmp pivot fuel after

/-- V8's `BinaryInsertionSort`: the elements of `rest` are inserted one after the
other into the sorted front `run`. -/
def binaryInsertionSort {α : Type} (cmp : α → α → JSNumber) (run rest : List α) : List α :=
  rest.foldl (fun sorted pivot => binaryInsert cmp pivot sorted.length sorted) run

/-- The method `Array.prototype.sort(cmp)` as V8 runs it on an array of fewer than
64 elements: the leading run, then binary insertion of the other elements. A
longer array V8 cuts into several such pieces, which it merges; for a
comparator that agrees with a key this gives the same array, as every stable
sort does. -/
def arraySort {α : Type} (cmp : α → α → JSNumber) (xs : List α) : List α :=
  binaryInsertionSort cmp (countAndMakeRun cmp xs).1 (countAndMakeRun cmp xs).2

/-! ## `TodoApp` -/

/-- The state of a `TodoApp`: its fields other than the DOM elements, and the
text held by the `localStorage` slot `todoTasks` (`none`: no such key). -/
structure TodoApp where
  tasks : List Task
  currentFilter : String
  currentCategory : String
  currentSort : String
  searchTerm : String
  storage : Option String
deriving DecidableEq, Repr

/-- The status stage of `getFilteredTasks` (lines 171-175). -/
def statusStage (currentFilter : String) (ts : List Task) : List Task :=
  if currentFilter = "pending" then ts.filter (fun task => !task.completed)
  else if currentFilter = "completed" then ts.filter (fun task => task.completed)
  else ts

/-- The test of the category stage: `task.category === this.currentCategory`. -/
def categoryTest (currentCategory : String) (task : Task) : Bool :=
  task.category == currentCategory

/-- The category stage of `getFilteredTasks` (lines 178-180). -/
def categoryStage (currentCategory : String) (ts : List Task) : List Task :=
  if currentCategory ≠ "all" then ts.filter (categoryTest currentCategory) else ts

/-- The test of the search stage (lines 185-186). -/
def searchTest (h : Host) (searchTerm : String) (task : Task) : Bool :=
  includes (h.toLowerCase task.title) searchTerm ||
    (truthy task.description && includes (h.toLowerCase task.description) searchTerm)

/-- The search stage of `getFilteredTasks` (lines 183-188). -/
def searchStage (h : Host) (searchTerm : String) (ts : List Task) : List Task :=
  if truthy searchTerm then ts.filter (searchTest h searchTerm) else ts

/-- The object literal `priorityOrder`, read at a key: `undefined` (here `none`)
for every key but the three. -/
def priorityOrder (priority : String) : Option Int :=
  if priority = "high" then some 3
  else if priority = "medium" then some 2
  else if priority = "low" then some 1
  else none

/-- The comparator handed to `sort` (lines 191-205). -/
def compareTasks (h : Host) (currentSort : String) (a b : Task) : JSNumber :=
  if currentSort = "deadline" then
    if !truthyOpt a.deadline && !truthyOpt b.deadline then some 0
    else if !truthyOpt a.deadline then some 1
    else if !truthyOpt b.deadline then some (-1)
    else jsSub ((a.deadline.bind h.dateParse)) ((b.deadline.bind h.dateParse))
  else if currentSort = "priority" then
    jsSub (priorityOrder b.priority) (priorityOrder a.priority)
  else
    jsSub (h.dateParse b.createdAt) (h.dateParse a.createdAt)

/-- The method `getFilteredTasks`. -/
def getFilteredTasks (h : Host) (app : TodoApp) : List Task :=
  arraySort (compareTasks h app.currentSort)
    (searchStage h app.searchTerm
      (categoryStage app.currentCategory
        (statusStage app.currentFilter app.tasks)))

/-- The method `saveTasks`: writes the serialised collection to the slot. -/
def saveTasks (app : TodoApp) : TodoApp :=
  { app with storage := some (jsonStringify app.tasks) }

/-- An exception thrown to the caller. -/
inductive JSError where
  | syntaxError
deriving DecidableEq, Repr

/-- The method `loadTasks`. `saved` is what `localStorage.getItem('todoTasks')`
returns (`none` is `null`); `parse` stands for `JSON.parse`, `none` being a thrown
`SyntaxError`, which nothing catches. -/
def loadTasks (parse : String → Option (List Task)) (saved : Option String) :
    Except JSError (List Task) :=
  if truthyOpt saved then
    match parse (saved.getD "") with
    | some tasks => Except.ok tasks
    | none => Except.error JSError.syntaxError
  else Except.ok []

/-- What one call of `addTask` reads from outside: the clock and the form. -/
structure AddCall where
  /-- The value of `Date.now()`, in milliseconds. -/
  now : Int
  /-- The value of `new Date().toISOString()` in the `Task` constructor. -/
  createdAt : String
  titleInput : String
  descriptionInput : String
  categoryValue : String
  priorityValue : String
  deadlineValue : String
deriving DecidableEq, Repr

/-- The method `addTask`. A title that is blank after trimming is refused (the
`alert` branch) and the application is left as it was. -/
def addTask (app : TodoApp) (c : AddCall) : TodoApp :=
  let title := trim c.titleInput
  if !truthy title then app
  else
    let task : Task :=
      { id := intToString c.now
        title := title
        description := trim c.descriptionInput
        category := c.categoryValue
        priority := c.priorityValue
        deadline := if truthy c.deadlineValue then some c.deadlineValue else none
        completed := false
        createdAt := c.createdAt }
    saveTasks { app with tasks := app.tasks ++ [task] }

/-- The method `deleteTask`; `confirmed` is the answer of `confirm`. -/
def deleteTask (app : TodoApp) (taskId : String) (confirmed : Bool) : TodoApp :=
  if confirmed then
    saveTasks { app with tasks := app.tasks.filter (fun task => task.id != taskId) }
  else app

/-- Assignment through the reference `find` returned: the first element that
satisfies `p` is replaced by its image under `f`. -/
def updateFirst (p : Task → Bool) (f : Task → Task) : List Task → List Task
  | [] => []
  | t :: ts => if p t then f t :: ts else t :: updateFirst p f ts

/-- The method `toggleTask`. -/
def toggleTask (app : TodoApp) (taskId : String) : TodoApp :=
  match app.tasks.find? (fun t => t.id == taskId) with
  | some _ =>
    saveTasks { app with
      tasks := updateFirst (fun t => t.id == taskId)
        (fun task => { task with completed := !task.completed }) app.tasks }
  | none => app

/-- The method `editTask`; `newTitle` and `newDescription` are the answers of the
two `prompt` calls, `none` for a cancelled prompt. -/
def editTask (app : TodoApp) (taskId : String) (newTitle newDescription : Option String) :
    TodoApp :=
  match app.tasks.find? (fun t => t.id == taskId) with
  | none => app
  | some _ =>
    match newTitle with
    | none => app
    | some title =>
      if truthy (trim title) then
        saveTasks { app with
          tasks := updateFirst (fun t => t.id == taskId)
            (fun task => { task with
              title := trim title
              description := if truthyOpt newDescription then newDescription.getD "" else "" })
            app.tasks }
      else app

/-- The number of milliseconds in a day, `1000 * 60 * 60 * 24`. -/
def msPerDay : Int := 1000 * 60 * 60 * 24

/-- The value of `Math.ceil(diffTime / msPerDay)` in exact arithmetic. -/
def ceilDays (diffTime : Int) : Int := -((-diffTime) / msPerDay)

/-- The method `formatDeadline`; `now` is the time value of `new Date()`. A
deadline that is no date makes `diffDays` `NaN`, every comparison false, and
the last branch prints it. -/
def formatDeadline (h : Host) (now : Int) (deadline : String) : String :=
  match h.dateParse deadline with
  | none => "NaN 天后到期"
  | some deadlineDate =>
    let diffTime := deadlineDate - now
    let diffDays := ceilDays diffTime
    if diffDays < 0 then "已过期 " ++ natToString diffDays.natAbs ++ " 天"
    else if diffDays = 0 then "今天到期"
    else if diffDays = 1 then "明天到期"
    else intToString diffDays ++ " 天后到期"

/-! ## A host for worked examples -/

/-- The value of a decimal digit character. -/
def digitValue (c : Char) : Option Nat :=
  if c.isDigit then some (c.toNat - 48) else none

/-- The value of a run of decimal digits. -/
def digitsValue : List Char → Option Nat
  | [] => none
  | cs => cs.foldl (fun acc c => acc.bind (fun v => (digitValue c).map (fun d => 10 * v + d))) (some 0)

/-- Days in a month of the proleptic Gregorian calendar. -/
def daysInMonth (y m : Nat) : Nat :=
  if m = 2 then (if y % 4 = 0 ∧ (y % 100 ≠ 0 ∨ y % 400 = 0) then 29 else 28)
  else if m = 4 ∨ m = 6 ∨ m = 9 ∨ m = 11 then 30 else 31

/-- Days from 1970-01-01 to the given civil date. -/
def daysFromCivil (y m d : Nat) : Int :=
  let y1 : Int := if m ≤ 2 then (y : Int) - 1 else y
  let era : Int := y1 / 400
  let yoe : Int := y1 - era * 400
  let mp : Int := if m > 2 then (m : Int) - 3 else (m : Int) + 9
  let doy : Int := (153 * mp + 2) / 5 + d - 1
  let doe : Int := yoe * 365 + yoe / 4 - yoe / 100 + doy
  era * 146097 + doe - 719468

/-- The date text reader on the date-only form `YYYY-MM-DD`, which ECMAScript
reads as midnight UTC; every other text is taken to be no date. -/
def isoDateParse (s : String) : Option Int :=
  match s.data with
  | [y1, y2, y3, y4, '-', m1, m2, '-', d1, d2] =>
    match digitsValue [y1, y2, y3, y4], digitsValue [m1, m2], digitsValue [d1, d2] with
    | some y, some m, some d =>
      if 1 ≤ m ∧ m ≤ 12 ∧ 1 ≤ d ∧ d ≤ daysInMonth y m then
        some (daysFromCivil y m d * msPerDay)
      else none
    | _, _, _ => none
  | _ => none

/-- A host for the worked examples. Its functions agree with ECMAScript on the
texts the examples use: ASCII text for `toLowerCase`; date-only ISO text and
text that holds no date for the date reader. -/
def exampleHost : Host :=
  { toLowerCase := fun s => String.mk (s.data.map Char.toLower)
    dateParse := isoDateParse }

/-! ## Vocabulary of the statements -/

/-- A task passes the category filter of the application. -/
def passesCategory (app : TodoApp) (t : Task) : Bool :=
  app.currentCategory == "all" || categoryTest app.currentCategory t

/-- A task passes the search filter of the application. -/
def passesSearch (h : Host) (app : TodoApp) (t : Task) : Bool :=
  !truthy app.searchTerm || searchTest h app.searchTerm t

/-- The tasks `getFilteredTasks` keeps, in stored order. -/
def keptTasks (h : Host) (app : TodoApp) : List Task :=
  searchStage h app.searchTerm
    (categoryStage app.currentCategory (statusStage app.currentFilter app.tasks))

/-- Task `a` may stand before task `b` in descending order of weight: when both
have a weight, that of `b` is not the higher one. -/
def weightDescending (a b : Task) : Bool :=
  match priorityOrder a.priority, priorityOrder b.priority with
  | some wa, some wb => decide (wb ≤ wa)
  | _, _ => true

/-- The task has a deadline: the field is neither `null` nor empty. -/
def hasDeadline (t : Task) : Bool := truthyOpt t.deadline

/-- The instant of the deadline of a task, when the field holds a date. -/
def deadlineInstant (h : Host) (t : Task) : Option Int :=
  if hasDeadline t then t.deadline.bind h.dateParse else none

/-- Task `a` may stand before task `b` as far as having a deadline goes: `a` has
one when `b` has one. -/
def deadlinedFirst (a b : Task) : Bool := !hasDeadline b || hasDeadline a

/-- Task `a` may stand before task `b` in order of deadline instant: when both
have an instant, that of `a` is not the later one. -/
def instantAscending (h : Host) (a b : Task) : Bool :=
  match deadlineInstant h a, deadlineInstant h b with
  | some x, some y => decide (x ≤ y)
  | _, _ => true

/-- The application at start with nothing stored: an empty collection and the
initial filter, category, sort and search fields. -/
def emptyApp : TodoApp :=
  { tasks := []
    currentFilter := "all"
    currentCategory := "all"
    currentSort := "created"
    searchTerm := ""
    storage := none }

/-- A sequence of `addTask` calls, from the empty collection. -/
def addTasks (calls : List AddCall) : TodoApp := calls.foldl addTask emptyApp

/-- The value of a text of decimal digits. -/
def decimalValue (cs : List Char) : Nat :=
  cs.foldl (fun v c => 10 * v + (c.toNat - 48)) 0

/-- The number of days the claim about `formatDeadline` names `d`: the ceiling,
in exact rational arithmetic, of `(deadline - now) / 24h`, both instants in
milliseconds. -/
def exactDays (deadline now : Int) : Int :=
  ⌈((deadline - now : Int) : ℚ) / (24 * 60 * 60 * 1000)⌉

/-! ## Worked examples -/

/-- A pending task with the given id, priority and deadline. -/
def exampleTask (id priority : String) (deadline : Option String) : Task :=
  { id := id
    title := "Task " ++ id
    description := ""
    category := "work"
    priority := priority
    deadline := deadline
    completed := false
    createdAt := "2025-01-01T00:00:00.000Z" }

/-- An application that shows every task of `tasks`, sorted by `currentSort`. -/
def exampleApp (tasks : List Task) (currentSort : String) : TodoApp :=
  { tasks := tasks
    currentFilter := "all"
    currentCategory := "all"
    currentSort := currentSort
    searchTerm := ""
    storage := none }

/-- Seven stored tasks: three low ones, one of a priority without weight, a
medium one, a high one and a second medium one. -/
def mixedTasks : List Task :=
  [exampleTask "1" "low" none, exampleTask "2" "low" none, exampleTask "3" "low" none,
    exampleTask "4" "urgent" none, exampleTask "5" "medium" none, exampleTask "6" "high" none,
    exampleTask "7" "medium" none]

/-- A call of `addTask` at clock reading `now` with the given title. -/
def exampleCall (now : Int) (title : String) : AddCall :=
  { now := now
    createdAt := "2025-01-01T00:00:00.000Z"
    titleInput := title
    descriptionInput := ""
    categoryValue := "work"
    priorityValue := "medium"
    deadlineValue := "" }

/-- An application that holds one task, titled `Report`, with id `1`. -/
def reportApp : TodoApp :=
  exampleApp [{ exampleTask "1" "medium" none with title := "Report" }] "created"

/-- A stand-in for `JSON.parse` in the worked examples: it reads the text `[]` as
the empty array and rejects every other text; it agrees with `JSON.parse` on
`[]` and on every text that is not JSON. -/
def exampleParse (text : String) : Option (List Task) :=
  if text = "[]" then some [] else none

end WebProject

namespace WebProject

/-! ## The sort -/

theorem takeRun_append {α : Type} (cmp : α → α → JSNumber) (d : Bool) (previous : α)
    (l : List α) : (takeRun cmp d previous l).1 ++ (takeRun cmp d previous l).2 = l := by
  induction l generalizing previous with
  | nil => rfl
  | cons current rest ih =>
    simp only [takeRun]
    split
    · simp [ih]
    · rfl

theorem takeRun_pairwise {α : Type} (cmp : α → α → JSNumber) (T : α → α → Prop)
    (hT : ∀ a b c, T a b → T b c → T a c) (d : Bool) (previous : α) (l : List α)
    (hstep : ∀ a ∈ previous :: l, ∀ b ∈ previous :: l,
      decide (sortOrder (cmp b a) < 0) = d → T a b) :
    (previous :: (takeRun cmp d previous l).1).Pairwise T := by
  induction l generalizing previous with
  | nil => simp [takeRun]
  | cons current rest ih =>
    simp only [takeRun]
    split
    · rename_i hc
      have hpc : T previous current :=
        hstep previous (by simp) current (by simp) hc
      have ih1 := ih current (fun a ha b hb => hstep a (List.mem_cons_of_mem _ ha) b
        (List.mem_cons_of_mem _ hb))
      rw [List.pairwise_cons] at ih1 ⊢
      refine ⟨fun x hx => ?_, List.pairwise_cons.mpr ih1⟩
      rcases List.mem_cons.mp hx with e | e
      · rw [e]; exact hpc
      · exact hT _ _ _ hpc (ih1.1 x e)
    · simp

theorem countAndMakeRun_perm {α : Type} (cmp : α → α → JSNumber) (xs : List α) :
    ((countAndMakeRun cmp xs).1 ++ (countAndMakeRun cmp xs).2).Perm xs := by
  match xs with
  | [] => simp [countAndMakeRun]
  | [a] => simp [countAndMakeRun]
  | first :: second :: rest =>
    simp only [countAndMakeRun]
    split
    · refine (List.Perm.append_right _ (List.reverse_perm _)).trans ?_
      simp [takeRun_append]
    · simp [takeRun_append]

theorem binaryInsert_spec {α κ : Type} [LinearOrder κ] (cmp : α → α → JSNumber)
    (key : α → κ) (pivot : α) : ∀ (fuel : Nat) (l : List α),
    ∃ l1 l2, l = l1 ++ l2 ∧ binaryInsert cmp pivot fuel l = l1 ++ pivot :: l2 ∧
      (l.length ≤ fuel → l.Pairwise (fun a b => key a ≤ key b) →
        (∀ m ∈ l, sortOrder (cmp pivot m) < 0 → key pivot ≤ key m) →
        (∀ m ∈ l, ¬ sortOrder (cmp pivot m) < 0 → key m ≤ key pivot) →
        (∀ x ∈ l1, key x ≤ key pivot) ∧ (∀ x ∈ l2, key pivot ≤ key x) ∧
        ((∀ m ∈ l, sortOrder (cmp pivot m) < 0 → key pivot < key m) →
          ∀ x ∈ l2, key pivot < key x)) := by
  intro fuel
  induction fuel with
  | zero =>
    intro l
    refine ⟨[], l, rfl, rfl, ?_⟩
    intro hlen _ _ _
    have hl : l = [] := List.length_eq_zero.mp (Nat.le_zero.mp hlen)
    subst hl
    simp
  | succ fuel ih =>
    intro l
    have hsplit := List.take_append_drop (l.length / 2) l
    simp only [binaryInsert]
    cases hdrop : l.drop (l.length / 2) with
    | nil =>
      have hl : l = [] := by
        have h1 := List.drop_eq_nil_iff.mp hdrop
        have h2 : l.length = 0 := by omega
        exact List.length_eq_zero.mp h2
      subst hl
      exact ⟨[], [], rfl, rfl, by simp⟩
    | cons mid after =>
      rw [hdrop] at hsplit
      have htake_len : (l.take (l.length / 2)).length ≤ l.length / 2 := by
        rw [List.length_take]; exact Nat.min_le_left _ _
      have hafter_len : after.length + 1 + (l.take (l.length / 2)).length = l.length := by
        have := congrArg List.length hsplit
        simp only [List.length_append, List.length_cons] at this
        omega
      by_cases hlt : sortOrder (cmp pivot mid) < 0
      · obtain ⟨a, b, hab, hins, hprop⟩ := ih (l.take (l.length / 2))
        refine ⟨a, b ++ mid :: after, ?_, ?_, ?_⟩
        · rw [← List.append_assoc, ← hab]; exact hsplit.symm
        · simp only [hlt, if_true, hins, List.append_assoc, List.cons_append]
        · intro hlen hsorted h1 h2
          rw [← hsplit] at hsorted h1 h2
          have hs := List.pairwise_append.mp hsorted
          have hp := hprop (by omega) hs.1
            (fun m hm => h1 m (List.mem_append_left _ hm))
            (fun m hm => h2 m (List.mem_append_left _ hm))
          have hmid : key pivot ≤ key mid := h1 mid (by simp) hlt
          have hafter : ∀ x ∈ after, key mid ≤ key x :=
            (List.pairwise_cons.mp hs.2.1).1
          refine ⟨hp.1, ?_, ?_⟩
          · intro x hx
            rcases List.mem_append.mp hx with e | e
            · exact hp.2.1 x e
            · rcases List.mem_cons.mp e with e1 | e1
              · rw [e1]; exact hmid
              · exact hmid.trans (hafter x e1)
          · intro h3 x hx
            rw [← hsplit] at h3
            rcases List.mem_append.mp hx with e | e
            · exact hp.2.2 (fun m hm => h3 m (List.mem_append_left _ hm)) x e
            · have hmid3 : key pivot < key mid := h3 mid (by simp) hlt
              rcases List.mem_cons.mp e with e1 | e1
              · rw [e1]; exact hmid3
              · exact lt_of_lt_of_le hmid3 (hafter x e1)
      · obtain ⟨a, b, hab, hins, hprop⟩ := ih after
        refine ⟨l.take (l.length / 2) ++ mid :: a, b, ?_, ?_, ?_⟩
        · rw [List.append_assoc, List.cons_append, ← hab]; exact hsplit.symm
        · simp only [hlt, if_false, hins, List.append_assoc, List.cons_append]
        · intro hlen hsorted h1 h2
          rw [← hsplit] at hsorted h1 h2
          have hs := List.pairwise_append.mp hsorted
          have hs2 := List.pairwise_cons.mp hs.2.1
          have hp := hprop (by omega) hs2.2
            (fun m hm => h1 m (List.mem_append_right _ (List.mem_cons_of_mem _ hm)))
            (fun m hm => h2 m (List.mem_append_right _ (List.mem_cons_of_mem _ hm)))
          have hmid : key mid ≤ key pivot := h2 mid (by simp) hlt
          refine ⟨?_, hp.2.1, ?_⟩
          · intro x hx
            rcases List.mem_append.mp hx with e | e
            · exact (hs.2.2 x e mid (by simp)).trans hmid
            · rcases List.mem_cons.mp e with e1 | e1
              · rw [e1]; exact hmid
              · exact hp.1 x e1
          · intro h3
            rw [← hsplit] at h3
            exact hp.2.2 (fun m hm =>
              h3 m (List.mem_append_right _ (List.mem_cons_of_mem _ hm)))

theorem binaryInsert_perm {α : Type} (cmp : α → α → JSNumber) (pivot : α) (fuel : Nat)
    (l : List α) : (binaryInsert cmp pivot fuel l).Perm (pivot :: l) := by
  obtain ⟨l1, l2, hl, hins, _⟩ := binaryInsert_spec cmp (fun _ => (0 : Nat)) pivot fuel l
  rw [hins, hl]
  exact List.perm_middle

theorem binaryInsertionSort_perm {α : Type} (cmp : α → α → JSNumber) (run rest : List α) :
    (binaryInsertionSort cmp run rest).Perm (run ++ rest) := by
  unfold binaryInsertionSort
  induction rest generalizing run with
  | nil => simp
  | cons pivot rest ih =>
    simp only [List.foldl_cons]
    refine (ih _).trans ?_
    refine (List.Perm.append_right rest (binaryInsert_perm cmp pivot _ run)).trans ?_
    simpa using (@List.perm_middle _ pivot run rest).symm

theorem arraySort_perm {α : Type} (cmp : α → α → JSNumber) (xs : List α) :
    (arraySort cmp xs).Perm xs :=
  (binaryInsertionSort_perm cmp _ _).trans (countAndMakeRun_perm cmp xs)

theorem binaryInsert_pairwise {α κ : Type} [LinearOrder κ] (cmp : α → α → JSNumber)
    (key : α → κ) (pivot : α) (l : List α)
    (hsorted : l.Pairwise (fun a b => key a ≤ key b))
    (h1 : ∀ m ∈ l, sortOrder (cmp pivot m) < 0 → key pivot ≤ key m)
    (h2 : ∀ m ∈ l, ¬ sortOrder (cmp pivot m) < 0 → key m ≤ key pivot) :
    (binaryInsert cmp pivot l.length l).Pairwise (fun a b => key a ≤ key b) := by
  obtain ⟨l1, l2, hl, hins, hprop⟩ := binaryInsert_spec cmp key pivot l.length l
  have hp := hprop (Nat.le_refl _) hsorted h1 h2
  rw [hins]
  rw [hl] at hsorted
  have hs := List.pairwise_append.mp hsorted
  refine List.pairwise_append.mpr ⟨hs.1, List.pairwise_cons.mpr ⟨hp.2.1, hs.2.1⟩, ?_⟩
  intro a ha b hb
  rcases List.mem_cons.mp hb with e | e
  · rw [e]; exact hp.1 a ha
  · exact hs.2.2 a ha b e

theorem binaryInsertionSort_pairwise {α κ : Type} [LinearOrder κ] (cmp : α → α → JSNumber)
    (key : α → κ) (run rest : List α)
    (hrun : run.Pairwise (fun a b => key a ≤ key b))
    (h1 : ∀ a ∈ run ++ rest, ∀ b ∈ run ++ rest, sortOrder (cmp a b) < 0 → key a ≤ key b)
    (h2 : ∀ a ∈ run ++ rest, ∀ b ∈ run ++ rest, ¬ sortOrder (cmp a b) < 0 → key b ≤ key a) :
    (binaryInsertionSort cmp run rest).Pairwise (fun a b => key a ≤ key b) := by
  unfold binaryInsertionSort
  induction rest generalizing run with
  | nil => exact hrun
  | cons pivot rest ih =>
    simp only [List.foldl_cons]
    have hmem : ∀ z, z ∈ binaryInsert cmp pivot run.length run ++ rest →
        z ∈ run ++ pivot :: rest := by
      intro z hz
      rcases List.mem_append.mp hz with e | e
      · rcases List.mem_cons.mp ((binaryInsert_perm cmp pivot _ run).mem_iff.mp e) with e1 | e1
        · simp [e1]
        · simp [e1]
      · simp [e]
    apply ih
    · exact binaryInsert_pairwise cmp key pivot run hrun
        (fun m hm => h1 pivot (by simp) m (by simp [hm]))
        (fun m hm => h2 pivot (by simp) m (by simp [hm]))
    · intro a ha b hb; exact h1 a (hmem a ha) b (hmem b hb)
    · intro a ha b hb; exact h2 a (hmem a ha) b (hmem b hb)

theorem countAndMakeRun_pairwise {α κ : Type} [LinearOrder κ] (cmp : α → α → JSNumber)
    (key : α → κ) (xs : List α)
    (h1 : ∀ a ∈ xs, ∀ b ∈ xs, sortOrder (cmp a b) < 0 → key a ≤ key b)
    (h2 : ∀ a ∈ xs, ∀ b ∈ xs, ¬ sortOrder (cmp a b) < 0 → key b ≤ key a) :
    (countAndMakeRun cmp xs).1.Pairwise (fun a b => key a ≤ key b) := by
  match xs with
  | [] => simp [countAndMakeRun]
  | [a] => simp [countAndMakeRun]
  | first :: second :: rest =>
    simp only [countAndMakeRun]
    split
    · rename_i hlt
      rw [List.pairwise_reverse]
      have hrun := takeRun_pairwise cmp (fun a b => key b ≤ key a)
        (fun a b c hab hbc => hbc.trans hab) true second rest
        (fun a ha b hb hd => h1 b (List.mem_cons_of_mem _ hb) a (List.mem_cons_of_mem _ ha)
          (by simpa using hd))
      rw [List.pairwise_cons] at hrun ⊢
      refine ⟨fun x hx => ?_, List.pairwise_cons.mpr hrun⟩
      have hfs : key second ≤ key first := h1 second (by simp) first (by simp) hlt
      rcases List.mem_cons.mp hx with e | e
      · rw [e]; exact hfs
      · exact (hrun.1 x e).trans hfs
    · rename_i hlt
      have hrun := takeRun_pairwise cmp (fun a b => key a ≤ key b)
        (fun a b c hab hbc => hab.trans hbc) false second rest
        (fun a ha b hb hd => h2 b (List.mem_cons_of_mem _ hb) a (List.mem_cons_of_mem _ ha)
          (by simpa using hd))
      rw [List.pairwise_cons] at hrun ⊢
      refine ⟨fun x hx => ?_, List.pairwise_cons.mpr hrun⟩
      have hfs : key first ≤ key second := h2 second (by simp) first (by simp) hlt
      rcases List.mem_cons.mp hx with e | e
      · rw [e]; exact hfs
      · exact hfs.trans (hrun.1 x e)

/-- When the comparator agrees with a key on the elements of the array (a
negative result only for a key that is not greater, any other result only for
a key that is not smaller), the sorted array is in non-decreasing order of the
key. -/
theorem arraySort_pairwise {α κ : Type} [LinearOrder κ] (cmp : α → α → JSNumber)
    (key : α → κ) (xs : List α)
    (h1 : ∀ a ∈ xs, ∀ b ∈ xs, sortOrder (cmp a b) < 0 → key a ≤ key b)
    (h2 : ∀ a ∈ xs, ∀ b ∈ xs, ¬ sortOrder (cmp a b) < 0 → key b ≤ key a) :
    (arraySort cmp xs).Pairwise (fun a b => key a ≤ key b) := by
  have hmem : ∀ z, z ∈ (countAndMakeRun cmp xs).1 ++ (countAndMakeRun cmp xs).2 → z ∈ xs :=
    fun z hz => (countAndMakeRun_perm cmp xs).mem_iff.mp hz
  apply binaryInsertionSort_pairwise cmp key _ _ (countAndMakeRun_pairwise cmp key xs h1 h2)
  · intro a ha b hb; exact h1 a (hmem a ha) b (hmem b hb)
  · intro a ha b hb; exact h2 a (hmem a ha) b (hmem b hb)

theorem filter_reverse_of_strict {α κ : Type} [LinearOrder κ] (key : α → κ) (P : α → Bool)
    (l : List α) (hl : l.Pairwise (fun a b => key b < key a))
    (hP : ∀ a ∈ l, ∀ b ∈ l, P a = true → P b = true → key a = key b) :
    l.reverse.filter P = l.filter P := by
  rw [List.filter_reverse]
  have hf : (l.filter P).Pairwise (fun a b => key b < key a) := hl.filter P
  cases hfl : l.filter P with
  | nil => rfl
  | cons x t =>
    cases t with
    | nil => rfl
    | cons y t =>
      rw [hfl] at hf
      have hxy : key y < key x := (List.pairwise_cons.mp hf).1 y (by simp)
      have hx : x ∈ l.filter P := by rw [hfl]; simp
      have hy : y ∈ l.filter P := by rw [hfl]; simp
      rw [List.mem_filter] at hx hy
      have := hP x hx.1 y hy.1 hx.2 hy.2
      rw [this] at hxy
      exact absurd hxy (lt_irrefl _)

theorem countAndMakeRun_filter {α κ : Type} [LinearOrder κ] (cmp : α → α → JSNumber)
    (key : α → κ) (P : α → Bool) (xs : List α)
    (hS : ∀ a ∈ xs, ∀ b ∈ xs, (sortOrder (cmp a b) < 0 ↔ key a < key b))
    (hP : ∀ a ∈ xs, ∀ b ∈ xs, P a = true → P b = true → key a = key b) :
    (countAndMakeRun cmp xs).1.filter P ++ (countAndMakeRun cmp xs).2.filter P
      = xs.filter P := by
  match xs with
  | [] => simp [countAndMakeRun]
  | [a] => simp [countAndMakeRun]
  | first :: second :: rest =>
    have happ := takeRun_append cmp
    simp only [countAndMakeRun]
    split
    · rename_i hlt
      have hrun := takeRun_pairwise cmp (fun a b => key b < key a)
        (fun a b c hab hbc => hbc.trans hab) true second rest
        (fun a ha b hb hd => (hS b (List.mem_cons_of_mem _ hb) a
          (List.mem_cons_of_mem _ ha)).mp (by simpa using hd))
      have hfs : key second < key first := (hS second (by simp) first (by simp)).mp hlt
      have hfull : (first :: second :: (takeRun cmp true second rest).1).Pairwise
          (fun a b => key b < key a) := by
        rw [List.pairwise_cons] at hrun ⊢
        refine ⟨fun x hx => ?_, List.pairwise_cons.mpr hrun⟩
        rcases List.mem_cons.mp hx with e | e
        · rw [e]; exact hfs
        · exact (hrun.1 x e).trans hfs
      have hsub : ∀ z, z ∈ first :: second :: (takeRun cmp true second rest).1 →
          z ∈ first :: second :: rest := by
        intro z hz
        have hz2 : z ∈ first :: second ::
            ((takeRun cmp true second rest).1 ++ (takeRun cmp true second rest).2) := by
          rcases List.mem_cons.mp hz with e | e
          · simp [e]
          · rcases List.mem_cons.mp e with e1 | e1
            · simp [e1]
            · simp [e1]
        rwa [happ] at hz2
      rw [filter_reverse_of_strict key P _ hfull
        (fun a ha b hb => hP a (hsub a ha) b (hsub b hb)), ← List.filter_append]
      simp [happ]
    · rw [← List.filter_append]
      simp [happ]

theorem binaryInsert_filter {α κ : Type} [LinearOrder κ] (cmp : α → α → JSNumber)
    (key : α → κ) (P : α → Bool) (pivot : α) (l : List α)
    (hsorted : l.Pairwise (fun a b => key a ≤ key b))
    (hS : ∀ m ∈ l, (sortOrder (cmp pivot m) < 0 ↔ key pivot < key m))
    (hP : ∀ m ∈ l, P m = true → P pivot = true → key m = key pivot) :
    (binaryInsert cmp pivot l.length l).filter P = l.filter P ++ [pivot].filter P := by
  obtain ⟨l1, l2, hl, hins, hprop⟩ := binaryInsert_spec cmp key pivot l.length l
  have hp := hprop (Nat.le_refl _) hsorted
    (fun m hm hlt => le_of_lt ((hS m hm).mp hlt))
    (fun m hm hlt => not_lt.mp (fun hc => hlt ((hS m hm).mpr hc)))
  have hstrict := hp.2.2 (fun m hm hlt => (hS m hm).mp hlt)
  rw [hins, hl, List.filter_append, List.filter_append]
  by_cases hpiv : P pivot = true
  · have hl2 : l2.filter P = [] := by
      rw [List.filter_eq_nil_iff]
      intro x hx hpx
      have h1 := hstrict x hx
      have h2 := hP x (by rw [hl]; exact List.mem_append_right _ hx) hpx hpiv
      rw [h2] at h1
      exact absurd h1 (lt_irrefl _)
    simp [List.filter_cons, hpiv, hl2]
  · simp [List.filter_cons, hpiv]

theorem binaryInsertionSort_filter {α κ : Type} [LinearOrder κ] (cmp : α → α → JSNumber)
    (key : α → κ) (P : α → Bool) (run rest : List α)
    (hrun : run.Pairwise (fun a b => key a ≤ key b))
    (hS : ∀ a ∈ run ++ rest, ∀ b ∈ run ++ rest, (sortOrder (cmp a b) < 0 ↔ key a < key b))
    (hP : ∀ a ∈ run ++ rest, ∀ b ∈ run ++ rest, P a = true → P b = true → key a = key b) :
    (binaryInsertionSort cmp run rest).filter P = run.filter P ++ rest.filter P := by
  unfold binaryInsertionSort
  induction rest generalizing run with
  | nil => simp
  | cons pivot rest ih =>
    simp only [List.foldl_cons]
    have hmem : ∀ z, z ∈ binaryInsert cmp pivot run.length run ++ rest →
        z ∈ run ++ pivot :: rest := by
      intro z hz
      rcases List.mem_append.mp hz with e | e
      · rcases List.mem_cons.mp ((binaryInsert_perm cmp pivot _ run).mem_iff.mp e) with e1 | e1
        · simp [e1]
        · simp [e1]
      · simp [e]
    rw [ih]
    · rw [binaryInsert_filter cmp key P pivot run hrun
        (fun m hm => hS pivot (by simp) m (by simp [hm]))
        (fun m hm => hP m (by simp [hm]) pivot (by simp))]
      simp [List.filter_cons]
      split <;> simp
    · exact binaryInsert_pairwise cmp key pivot run hrun
        (fun m hm hlt => le_of_lt ((hS pivot (by simp) m (by simp [hm])).mp hlt))
        (fun m hm hlt => not_lt.mp (fun hc =>
          hlt ((hS pivot (by simp) m (by simp [hm])).mpr hc)))
    · intro a ha b hb; exact hS a (hmem a ha) b (hmem b hb)
    · intro a ha b hb; exact hP a (hmem a ha) b (hmem b hb)

/-- When the sign of the comparator is that of a key on the elements of the array
(a negative result exactly for a smaller key), the sort is stable: the elements
of a class of equal key keep their relative order. -/
theorem arraySort_filter {α κ : Type} [LinearOrder κ] (cmp : α → α → JSNumber)
    (key : α → κ) (P : α → Bool) (xs : List α)
    (hS : ∀ a ∈ xs, ∀ b ∈ xs, (sortOrder (cmp a b) < 0 ↔ key a < key b))
    (hP : ∀ a ∈ xs, ∀ b ∈ xs, P a = true → P b = true → key a = key b) :
    (arraySort cmp xs).filter P = xs.filter P := by
  have hmem : ∀ z, z ∈ (countAndMakeRun cmp xs).1 ++ (countAndMakeRun cmp xs).2 → z ∈ xs :=
    fun z hz => (countAndMakeRun_perm cmp xs).mem_iff.mp hz
  unfold arraySort
  rw [binaryInsertionSort_filter cmp key P _ _
    (countAndMakeRun_pairwise cmp key xs
      (fun a ha b hb hlt => le_of_lt ((hS a ha b hb).mp hlt))
      (fun a ha b hb hlt => not_lt.mp (fun hc => hlt ((hS a ha b hb).mpr hc))))
    (fun a ha b hb => hS a (hmem a ha) b (hmem b hb))
    (fun a ha b hb => hP a (hmem a ha) b (hmem b hb))]
  exact countAndMakeRun_filter cmp key P xs hS hP

/-! ## The filter stages -/

theorem statusStage_sublist (f : String) (ts : List Task) : (statusStage f ts).Sublist ts := by
  unfold statusStage
  split
  · exact List.filter_sublist _
  · split
    · exact List.filter_sublist _
    · exact List.Sublist.refl _

theorem categoryStage_eq (app : TodoApp) (ts : List Task) :
    categoryStage app.currentCategory ts = ts.filter (passesCategory app) := by
  unfold categoryStage passesCategory
  by_cases hc : app.currentCategory = "all"
  · simp [hc]
  · have hb : (app.currentCategory == "all") = false := by simpa using hc
    simp [hc, hb]

theorem searchStage_eq (h : Host) (app : TodoApp) (ts : List Task) :
    searchStage h app.searchTerm ts = ts.filter (passesSearch h app) := by
  unfold searchStage passesSearch
  by_cases hc : truthy app.searchTerm = true
  · simp [hc]
  · simp [hc]

theorem keptTasks_eq (h : Host) (app : TodoApp) :
    keptTasks h app = (statusStage app.currentFilter app.tasks).filter
      (fun t => passesCategory app t && passesSearch h app t) := by
  unfold keptTasks
  rw [searchStage_eq, categoryStage_eq, List.filter_filter]
  congr 1
  funext t
  exact Bool.and_comm _ _

theorem keptTasks_sublist (h : Host) (app : TodoApp) : (keptTasks h app).Sublist app.tasks := by
  rw [keptTasks_eq]
  exact (List.filter_sublist _).trans (statusStage_sublist _ _)

theorem getFilteredTasks_perm (h : Host) (app : TodoApp) :
    (getFilteredTasks h app).Perm (keptTasks h app) :=
  arraySort_perm _ _

/-! ## C1: the status filter -/

/-- C1. With `currentFilter` `pending`, every task `getFilteredTasks` returns has
`completed == false`, and the result is a rearrangement of the stored tasks that
have `completed == false` and pass the category and search filters, so each of
them is in it exactly as often as it is stored; likewise with `completed` and
`completed == true`; with `all` the status stage returns its input and the
result is a rearrangement of the tasks that pass the two other filters. -/
theorem getFilteredTasks_status (h : Host) (app : TodoApp) :
    (app.currentFilter = "pending" →
      (∀ t ∈ getFilteredTasks h app, t.completed = false) ∧
      (getFilteredTasks h app).Perm (app.tasks.filter
        (fun t => !t.completed && (passesCategory app t && passesSearch h app t)))) ∧
    (app.currentFilter = "completed" →
      (∀ t ∈ getFilteredTasks h app, t.completed = true) ∧
      (getFilteredTasks h app).Perm (app.tasks.filter
        (fun t => t.completed && (passesCategory app t && passesSearch h app t)))) ∧
    (app.currentFilter = "all" →
      statusStage app.currentFilter app.tasks = app.tasks ∧
      (getFilteredTasks h app).Perm (app.tasks.filter
        (fun t => passesCategory app t && passesSearch h app t))) := by
  have hperm := getFilteredTasks_perm h app
  rw [keptTasks_eq] at hperm
  refine ⟨fun hf => ?_, fun hf => ?_, fun hf => ?_⟩
  · have hst : statusStage app.currentFilter app.tasks
        = app.tasks.filter (fun task => !task.completed) := by
      simp [statusStage, hf]
    rw [hst, List.filter_filter] at hperm
    have hperm2 : (getFilteredTasks h app).Perm (app.tasks.filter
        (fun t => !t.completed && (passesCategory app t && passesSearch h app t))) := by
      refine hperm.trans (List.Perm.of_eq ?_)
      congr 1
      funext t
      exact Bool.and_comm _ _
    refine ⟨fun t ht => ?_, hperm2⟩
    have hm := hperm2.mem_iff.mp ht
    rw [List.mem_filter] at hm
    have h2 := hm.2
    simp only [Bool.and_eq_true, Bool.not_eq_true'] at h2
    exact h2.1
  · have hst : statusStage app.currentFilter app.tasks
        = app.tasks.filter (fun task => task.completed) := by
      simp [statusStage, hf]
    rw [hst, List.filter_filter] at hperm
    have hperm2 : (getFilteredTasks h app).Perm (app.tasks.filter
        (fun t => t.completed && (passesCategory app t && passesSearch h app t))) := by
      refine hperm.trans (List.Perm.of_eq ?_)
      congr 1
      funext t
      exact Bool.and_comm _ _
    refine ⟨fun t ht => ?_, hperm2⟩
    have hm := hperm2.mem_iff.mp ht
    rw [List.mem_filter] at hm
    have h2 := hm.2
    simp only [Bool.and_eq_true] at h2
    exact h2.1
  · have hst : statusStage app.currentFilter app.tasks = app.tasks := by
      simp [statusStage, hf]
    rw [hst] at hperm
    exact ⟨hst, hperm⟩

/-! ## C2: the priority sort -/

theorem priorityOrder_known (p : String) (hp : p = "high" ∨ p = "medium" ∨ p = "low") :
    ∃ w, priorityOrder p = some w := by
  rcases hp with hp | hp | hp
  · exact ⟨3, by rw [hp]; decide⟩
  · exact ⟨2, by rw [hp]; decide⟩
  · exact ⟨1, by rw [hp]; decide⟩

theorem priority_sign (h : Host) (app : TodoApp) (hs : app.currentSort = "priority")
    (hk : ∀ t ∈ keptTasks h app, ∃ w, priorityOrder t.priority = some w) :
    ∀ a ∈ keptTasks h app, ∀ b ∈ keptTasks h app,
      (sortOrder (compareTasks h app.currentSort a b) < 0 ↔
        -((priorityOrder a.priority).getD 0) < -((priorityOrder b.priority).getD 0)) := by
  intro a ha b hb
  obtain ⟨wa, hwa⟩ := hk a ha
  obtain ⟨wb, hwb⟩ := hk b hb
  simp only [compareTasks, hs, hwa, hwb, jsSub, sortOrder, Option.getD_some]
  simp

/-- C2, as stated, fails. Of the stored tasks `1` (low), `2` (urgent), `3` (high)
the priority sort returns `1`, `2`, `3`: every comparison with task `2` yields
`NaN`, which `sort` reads as equal, so the low task stays before the high one. -/
theorem priority_sort_counterexample :
    getFilteredTasks exampleHost (exampleApp
        [exampleTask "1" "low" none, exampleTask "2" "urgent" none, exampleTask "3" "high" none]
        "priority")
      = [exampleTask "1" "low" none, exampleTask "2" "urgent" none, exampleTask "3" "high" none] ∧
    ¬ (getFilteredTasks exampleHost (exampleApp
        [exampleTask "1" "low" none, exampleTask "2" "urgent" none, exampleTask "3" "high" none]
        "priority")).Pairwise (fun a b => weightDescending a b = true) := by
  decide

/-- C2, amended. When every stored task has one of the priorities `high`,
`medium`, `low`, then with `currentSort` `priority` the result of
`getFilteredTasks` is in descending order of weight: no task stands before a
task of higher weight. And a collection of a `high` task stored before a `low`
task, shown unfiltered, comes out as these two tasks in this order. -/
theorem getFilteredTasks_priority_descending (h : Host) (app : TodoApp)
    (hs : app.currentSort = "priority")
    (hp : ∀ t ∈ app.tasks, t.priority = "high" ∨ t.priority = "medium" ∨ t.priority = "low") :
    (getFilteredTasks h app).Pairwise (fun a b => weightDescending a b = true) ∧
    ∀ t1 t2 : Task, t1.priority = "high" → t2.priority = "low" →
      getFilteredTasks h (exampleApp [t1, t2] "priority") = [t1, t2] := by
  constructor
  · have hk : ∀ t ∈ keptTasks h app, ∃ w, priorityOrder t.priority = some w := fun t ht =>
      priorityOrder_known _ (hp t ((keptTasks_sublist h app).subset ht))
    have hsign := priority_sign h app hs hk
    have hsorted := arraySort_pairwise (compareTasks h app.currentSort)
      (fun t => -((priorityOrder t.priority).getD 0)) (keptTasks h app)
      (fun a ha b hb hlt => le_of_lt ((hsign a ha b hb).mp hlt))
      (fun a ha b hb hlt => not_lt.mp (fun hc => hlt ((hsign a ha b hb).mpr hc)))
    refine hsorted.imp ?_
    intro a b hab
    unfold weightDescending
    split
    · rename_i wa wb hwa hwb
      simp only [hwa, hwb, Option.getD_some] at hab
      simp only [decide_eq_true_eq]
      omega
    · rfl
  · intro t1 t2 h1 h2
    simp [getFilteredTasks, exampleApp, statusStage, categoryStage, searchStage, truthy,
      arraySort, countAndMakeRun, takeRun, binaryInsertionSort, compareTasks, h1, h2,
      priorityOrder, jsSub, sortOrder]

/-- The amended C2 at a stored collection of a high, a low and a medium task. -/
theorem getFilteredTasks_priority_descending_witness :
    (getFilteredTasks exampleHost (exampleApp
        [exampleTask "1" "high" none, exampleTask "2" "low" none, exampleTask "3" "medium" none]
        "priority")).Pairwise (fun a b => weightDescending a b = true) ∧
    ∀ t1 t2 : Task, t1.priority = "high" → t2.priority = "low" →
      getFilteredTasks exampleHost (exampleApp [t1, t2] "priority") = [t1, t2] :=
  getFilteredTasks_priority_descending exampleHost
    (exampleApp
      [exampleTask "1" "high" none, exampleTask "2" "low" none, exampleTask "3" "medium" none]
      "priority")
    rfl (by decide)

/-! ## C3: stability of the priority sort -/

/-- C3, as stated, fails. Of the stored tasks `1`, `2`, `3` (low), `4` (urgent),
`5` (medium), `6` (high), `7` (medium) the priority sort returns `6`, `7`, `1`,
`2`, `3`, `4`, `5`: task `4` has no weight, every comparison with it yields
`NaN`, so the run `1` to `5` counts as sorted, and the binary search for the
place of task `7` ends before task `5` without ever looking at it. The two
`medium` tasks `7` and `5` stand in the result against their stored order. -/
theorem priority_stable_counterexample :
    getFilteredTasks exampleHost (exampleApp mixedTasks "priority")
      = [exampleTask "6" "high" none, exampleTask "7" "medium" none,
          exampleTask "1" "low" none, exampleTask "2" "low" none, exampleTask "3" "low" none,
          exampleTask "4" "urgent" none, exampleTask "5" "medium" none] ∧
    (exampleTask "7" "medium" none).priority = (exampleTask "5" "medium" none).priority ∧
    [exampleTask "7" "medium" none, exampleTask "5" "medium" none].Sublist
      (getFilteredTasks exampleHost (exampleApp mixedTasks "priority")) ∧
    ¬ [exampleTask "7" "medium" none, exampleTask "5" "medium" none].Sublist
      (exampleApp mixedTasks "priority").tasks := by
  decide

/-- C3, amended. When every stored task has one of the priorities `high`,
`medium`, `low`, then with `currentSort` `priority`, for every priority value
`p` the tasks of priority `p` in the result of `getFilteredTasks` are the kept
tasks of priority `p` in their stored order; hence two tasks of equal priority
that stand in the result one before the other stand in this order in
`this.tasks` too. -/
theorem getFilteredTasks_priority_stable (h : Host) (app : TodoApp)
    (hs : app.currentSort = "priority")
    (hp : ∀ t ∈ app.tasks, t.priority = "high" ∨ t.priority = "medium" ∨ t.priority = "low") :
    (∀ p : String,
      (getFilteredTasks h app).filter (fun t => t.priority == p)
        = (keptTasks h app).filter (fun t => t.priority == p)) ∧
    (keptTasks h app).Sublist app.tasks ∧
    (∀ a b : Task, a.priority = b.priority →
      [a, b].Sublist (getFilteredTasks h app) → [a, b].Sublist app.tasks) := by
  have hk : ∀ t ∈ keptTasks h app, ∃ w, priorityOrder t.priority = some w := fun t ht =>
    priorityOrder_known _ (hp t ((keptTasks_sublist h app).subset ht))
  have hfil : ∀ p : String,
      (getFilteredTasks h app).filter (fun t => t.priority == p)
        = (keptTasks h app).filter (fun t => t.priority == p) := by
    intro p
    apply arraySort_filter (compareTasks h app.currentSort)
      (fun t => -((priorityOrder t.priority).getD 0)) _ _ (priority_sign h app hs hk)
    intro a _ b _ ha hb
    have ha1 : a.priority = p := by simpa using ha
    have hb1 : b.priority = p := by simpa using hb
    simp only [ha1, hb1]
  refine ⟨hfil, keptTasks_sublist h app, ?_⟩
  intro a b hab hsub
  have h1 := hsub.filter (fun t => t.priority == b.priority)
  have h2 : [a, b].filter (fun t => t.priority == b.priority) = [a, b] := by
    simp [List.filter_cons, hab]
  rw [h2, hfil] at h1
  exact (h1.trans (List.filter_sublist _)).trans (keptTasks_sublist h app)

/-- The amended C3 at the stored tasks `1` (medium), `2` (low), `3` (high),
`4` (medium). -/
theorem getFilteredTasks_priority_stable_witness :
    (∀ p : String,
      (getFilteredTasks exampleHost (exampleApp
        [exampleTask "1" "medium" none, exampleTask "2" "low" none,
          exampleTask "3" "high" none, exampleTask "4" "medium" none] "priority")).filter
          (fun t => t.priority == p)
        = (keptTasks exampleHost (exampleApp
        [exampleTask "1" "medium" none, exampleTask "2" "low" none,
          exampleTask "3" "high" none, exampleTask "4" "medium" none] "priority")).filter
          (fun t => t.priority == p)) ∧
    (keptTasks exampleHost (exampleApp
        [exampleTask "1" "medium" none, exampleTask "2" "low" none,
          exampleTask "3" "high" none, exampleTask "4" "medium" none] "priority")).Sublist
      [exampleTask "1" "medium" none, exampleTask "2" "low" none,
          exampleTask "3" "high" none, exampleTask "4" "medium" none] ∧
    (∀ a b : Task, a.priority = b.priority →
      [a, b].Sublist (getFilteredTasks exampleHost (exampleApp
        [exampleTask "1" "medium" none, exampleTask "2" "low" none,
          exampleTask "3" "high" none, exampleTask "4" "medium" none] "priority")) →
      [a, b].Sublist [exampleTask "1" "medium" none, exampleTask "2" "low" none,
          exampleTask "3" "high" none, exampleTask "4" "medium" none]) :=
  getFilteredTasks_priority_stable exampleHost
    (exampleApp
      [exampleTask "1" "medium" none, exampleTask "2" "low" none,
        exampleTask "3" "high" none, exampleTask "4" "medium" none] "priority")
    rfl (by decide)

/-! ## C4: the deadline sort -/

/-- C4, as stated, fails. Of the stored tasks `1` (deadline 2025-01-02), `2` (a
deadline text that is no date) and `3` (deadline 2025-01-01) the deadline sort
returns `1`, `2`, `3`: every comparison with task `2` yields `NaN`, so the task
due on the second of January stays before the one due on the first. -/
theorem deadline_sort_counterexample :
    getFilteredTasks exampleHost (exampleApp
        [exampleTask "1" "low" (some "2025-01-02"), exampleTask "2" "low" (some "soon"),
          exampleTask "3" "low" (some "2025-01-01")] "deadline")
      = [exampleTask "1" "low" (some "2025-01-02"), exampleTask "2" "low" (some "soon"),
          exampleTask "3" "low" (some "2025-01-01")] ∧
    ¬ (getFilteredTasks exampleHost (exampleApp
        [exampleTask "1" "low" (some "2025-01-02"), exampleTask "2" "low" (some "soon"),
          exampleTask "3" "low" (some "2025-01-01")] "deadline")).Pairwise
        (fun a b => instantAscending exampleHost a b = true) := by
  decide

/-- C4, amended. With `currentSort` `deadline`, in the result of
`getFilteredTasks` every task that has a deadline stands before every task that
has none, for every collection; and when every stored deadline that is not
empty is a text the `Date` reader accepts, the tasks appear in non-decreasing
order of deadline instant. -/
theorem getFilteredTasks_deadline_order (h : Host) (app : TodoApp)
    (hs : app.currentSort = "deadline") :
    (getFilteredTasks h app).Pairwise (fun a b => deadlinedFirst a b = true) ∧
    ((∀ t ∈ app.tasks, hasDeadline t = true → (deadlineInstant h t).isSome = true) →
      (getFilteredTasks h app).Pairwise (fun a b => instantAscending h a b = true)) := by
  constructor
  · have hsorted := arraySort_pairwise (compareTasks h app.currentSort)
      (fun t => if hasDeadline t = true then (0 : Nat) else 1) (keptTasks h app)
      (by
        intro a _ b _ hlt
        cases ha : truthyOpt a.deadline <;> cases hb : truthyOpt b.deadline <;>
          simp [compareTasks, hs, ha, hb, sortOrder, hasDeadline] at hlt ⊢)
      (by
        intro a _ b _ hlt
        cases ha : truthyOpt a.deadline <;> cases hb : truthyOpt b.deadline <;>
          simp [compareTasks, hs, ha, hb, sortOrder, hasDeadline] at hlt ⊢)
    refine hsorted.imp ?_
    intro a b hab
    cases ha : hasDeadline a <;> cases hb : hasDeadline b <;>
      simp [ha, hb] at hab <;> simp [deadlinedFirst, ha, hb]
  · intro hv
    have hk : ∀ t ∈ keptTasks h app, hasDeadline t = true →
        ∃ x, deadlineInstant h t = some x := fun t ht hd =>
      Option.isSome_iff_exists.mp (hv t ((keptTasks_sublist h app).subset ht) hd)
    have hbind : ∀ t x, hasDeadline t = true → deadlineInstant h t = some x →
        t.deadline.bind h.dateParse = some x := by
      intro t x ht hx
      simpa [deadlineInstant, ht] using hx
    have hsorted := arraySort_pairwise (compareTasks h app.currentSort)
      (fun t => if hasDeadline t = true then (((deadlineInstant h t).getD 0 : Int) : WithTop Int)
        else ⊤) (keptTasks h app)
      (by
        intro a ha b hb hlt
        cases hda : hasDeadline a <;> cases hdb : hasDeadline b
        · simp [hda, hdb]
        · have hta : truthyOpt a.deadline = false := hda
          have htb : truthyOpt b.deadline = true := hdb
          simp [compareTasks, hs, hta, htb, sortOrder] at hlt
        · simp [hda, hdb]
        · obtain ⟨x, hx⟩ := hk a ha hda
          obtain ⟨y, hy⟩ := hk b hb hdb
          have hta : truthyOpt a.deadline = true := hda
          have htb : truthyOpt b.deadline = true := hdb
          simp only [compareTasks, hs, hta, htb, hbind a x hda hx, hbind b y hdb hy, jsSub,
            sortOrder] at hlt
          simp only [hda, hdb, hx, hy, if_true, Option.getD_some, WithTop.coe_le_coe]
          simp at hlt
          omega)
      (by
        intro a ha b hb hlt
        cases hda : hasDeadline a <;> cases hdb : hasDeadline b
        · simp [hda, hdb]
        · simp [hda, hdb]
        · have hta : truthyOpt a.deadline = true := hda
          have htb : truthyOpt b.deadline = false := hdb
          simp [compareTasks, hs, hta, htb, sortOrder] at hlt
        · obtain ⟨x, hx⟩ := hk a ha hda
          obtain ⟨y, hy⟩ := hk b hb hdb
          have hta : truthyOpt a.deadline = true := hda
          have htb : truthyOpt b.deadline = true := hdb
          simp only [compareTasks, hs, hta, htb, hbind a x hda hx, hbind b y hdb hy, jsSub,
            sortOrder] at hlt
          simp only [hda, hdb, hx, hy, if_true, Option.getD_some, WithTop.coe_le_coe]
          simp at hlt
          omega)
    refine hsorted.imp ?_
    intro a b hab
    unfold instantAscending
    split
    · rename_i x y hx hy
      have hda : hasDeadline a = true := by
        by_contra hc
        simp [deadlineInstant, hc] at hx
      have hdb : hasDeadline b = true := by
        by_contra hc
        simp [deadlineInstant, hc] at hy
      simp only [hda, hdb, hx, hy, if_true, Option.getD_some, WithTop.coe_le_coe] at hab
      simpa using hab
    · rfl

/-- The amended C4 at a stored collection of two dated tasks and one without
deadline. -/
theorem getFilteredTasks_deadline_order_witness :
    (getFilteredTasks exampleHost (exampleApp
        [exampleTask "1" "low" none, exampleTask "2" "low" (some "2025-01-02"),
          exampleTask "3" "low" (some "2025-01-01")] "deadline")).Pairwise
        (fun a b => deadlinedFirst a b = true) ∧
    (getFilteredTasks exampleHost (exampleApp
        [exampleTask "1" "low" none, exampleTask "2" "low" (some "2025-01-02"),
          exampleTask "3" "low" (some "2025-01-01")] "deadline")).Pairwise
        (fun a b => instantAscending exampleHost a b = true) :=
  ⟨(getFilteredTasks_deadline_order exampleHost (exampleApp
        [exampleTask "1" "low" none, exampleTask "2" "low" (some "2025-01-02"),
          exampleTask "3" "low" (some "2025-01-01")] "deadline") rfl).1,
    (getFilteredTasks_deadline_order exampleHost (exampleApp
        [exampleTask "1" "low" none, exampleTask "2" "low" (some "2025-01-02"),
          exampleTask "3" "low" (some "2025-01-01")] "deadline") rfl).2 (by decide)⟩

/-! ## C5: identifiers -/

theorem toDigitsCore_value (fuel : Nat) : ∀ (n : Nat) (acc : List Char), n < fuel →
    (Nat.toDigitsCore 10 fuel n acc).foldl (fun v c => 10 * v + (c.toNat - 48)) 0
      = acc.foldl (fun v c => 10 * v + (c.toNat - 48)) n := by
  induction fuel with
  | zero => intro n acc hn; omega
  | succ fuel ih =>
    intro n acc hn
    have hd : ∀ k, k < 10 → (Nat.digitChar k).toNat - 48 = k := by decide
    have hk := hd (n % 10) (Nat.mod_lt _ (by decide))
    simp only [Nat.toDigitsCore]
    split
    · rename_i h0
      simp only [List.foldl_cons, hk]
      congr 1
      omega
    · rename_i h0
      rw [ih (n / 10) _ (by omega)]
      simp only [List.foldl_cons, hk]
      congr 1
      omega

theorem decimalValue_toDigits (n : Nat) : decimalValue (Nat.toDigits 10 n) = n := by
  unfold decimalValue Nat.toDigits
  rw [toDigitsCore_value (n + 1) n [] (by omega)]
  rfl

theorem toDigitsCore_isDigit (fuel : Nat) : ∀ (n : Nat) (acc : List Char),
    ∀ c ∈ Nat.toDigitsCore 10 fuel n acc, c ∈ acc ∨ c.isDigit = true := by
  induction fuel with
  | zero => intro n acc c hc; exact Or.inl hc
  | succ fuel ih =>
    intro n acc c hc
    have hd : ∀ k, k < 10 → (Nat.digitChar k).isDigit = true := by decide
    have hk := hd (n % 10) (Nat.mod_lt _ (by decide))
    simp only [Nat.toDigitsCore] at hc
    split at hc
    · rcases List.mem_cons.mp hc with e | e
      · right; rw [e]; exact hk
      · exact Or.inl e
    · rcases ih _ _ c hc with e | e
      · rcases List.mem_cons.mp e with e1 | e1
        · right; rw [e1]; exact hk
        · exact Or.inl e1
      · exact Or.inr e

theorem intToString_injective : Function.Injective intToString := by
  intro a b hab
  have hminus : ∀ n m : Nat, Char.ofNat 45 :: Nat.toDigits 10 n ≠ Nat.toDigits 10 m := by
    intro n m he
    have hmem : Char.ofNat 45 ∈ Nat.toDigits 10 m := by rw [← he]; exact List.mem_cons_self _ _
    rcases toDigitsCore_isDigit _ _ _ _ hmem with e | e
    · exact absurd e (List.not_mem_nil _)
    · exact absurd e (by decide)
  have hval : ∀ n m : Nat, Nat.toDigits 10 n = Nat.toDigits 10 m → n = m := by
    intro n m he
    rw [← decimalValue_toDigits n, ← decimalValue_toDigits m, he]
  unfold intToString natToString at hab
  by_cases ha : a < 0 <;> by_cases hb : b < 0
  · simp only [ha, hb, if_true] at hab
    have hd := congrArg String.data hab
    simp only [List.cons.injEq, true_and] at hd
    have := hval _ _ hd
    omega
  · simp only [ha, hb, if_true, if_false] at hab
    exact absurd (congrArg String.data hab) (hminus _ _)
  · simp only [ha, hb, if_true, if_false] at hab
    exact absurd (congrArg String.data hab).symm (hminus _ _)
  · simp only [ha, hb, if_false] at hab
    have := hval _ _ (congrArg String.data hab)
    omega

theorem addTask_ids (app : TodoApp) (c : AddCall) :
    (addTask app c).tasks.map (fun t => t.id)
      = app.tasks.map (fun t => t.id)
        ++ (if truthy (trim c.titleInput) = true then [intToString c.now] else []) := by
  unfold addTask
  by_cases ht : truthy (trim c.titleInput) = true
  · simp [ht, saveTasks]
  · simp [ht]

theorem foldl_addTask_ids (calls : List AddCall) (app : TodoApp) :
    (calls.foldl addTask app).tasks.map (fun t => t.id)
      = app.tasks.map (fun t => t.id)
        ++ (calls.filter (fun c => truthy (trim c.titleInput))).map
          (fun c => intToString c.now) := by
  induction calls generalizing app with
  | nil => simp
  | cons c cs ih =>
    rw [List.foldl_cons, ih, addTask_ids]
    by_cases ht : truthy (trim c.titleInput) = true
    · simp [ht, List.filter_cons]
    · simp [ht, List.filter_cons]

/-- C5, as stated, fails. Two successful `addTask` calls at which `Date.now()`
returns the same millisecond, 1730000000000, store two tasks with the same id. -/
theorem addTask_ids_counterexample :
    (addTasks [exampleCall 1730000000000 "Buy milk", exampleCall 1730000000000 "Report"]).tasks.map
        (fun t => (t.id, t.title))
      = [("1730000000000", "Buy milk"), ("1730000000000", "Report")] ∧
    ¬ ((addTasks [exampleCall 1730000000000 "Buy milk",
        exampleCall 1730000000000 "Report"]).tasks.map (fun t => t.id)).Nodup := by
  decide

/-- C5, amended. Starting from an empty collection, after any sequence of
`addTask` calls at which the readings of `Date.now()` are pairwise distinct,
the ids of the tasks in the collection are pairwise distinct; they are the
decimal texts of the readings of the calls whose title was not blank. -/
theorem addTasks_ids_nodup (calls : List AddCall)
    (hclock : (calls.map (fun c => c.now)).Nodup) :
    ((addTasks calls).tasks.map (fun t => t.id)).Nodup ∧
    (addTasks calls).tasks.map (fun t => t.id)
      = (calls.filter (fun c => truthy (trim c.titleInput))).map (fun c => intToString c.now) := by
  have hids : (addTasks calls).tasks.map (fun t => t.id)
      = (calls.filter (fun c => truthy (trim c.titleInput))).map
        (fun c => intToString c.now) := by
    unfold addTasks
    rw [foldl_addTask_ids]
    simp [emptyApp]
  refine ⟨?_, hids⟩
  rw [hids]
  have hsub : ((calls.filter (fun c => truthy (trim c.titleInput))).map (fun c => c.now)).Nodup :=
    hclock.sublist ((List.filter_sublist _).map _)
  have := hsub.map intToString_injective
  simpa [List.map_map] using this

/-- The amended C5 at two calls one millisecond apart. -/
theorem addTasks_ids_nodup_witness :
    ((addTasks [exampleCall 1730000000000 "Buy milk",
        exampleCall 1730000000001 "Report"]).tasks.map (fun t => t.id)).Nodup ∧
    (addTasks [exampleCall 1730000000000 "Buy milk",
        exampleCall 1730000000001 "Report"]).tasks.map (fun t => t.id)
      = ([exampleCall 1730000000000 "Buy milk", exampleCall 1730000000001 "Report"].filter
          (fun c => truthy (trim c.titleInput))).map (fun c => intToString c.now) :=
  addTasks_ids_nodup
    [exampleCall 1730000000000 "Buy milk", exampleCall 1730000000001 "Report"] (by decide)

/-! ## C6: editing with a blank title -/

/-- C6. For every collection, every id (of a task in it or not) and every title
entered in the edit prompt that is blank after trimming, and also for a
cancelled prompt, `editTask` leaves the application as it was: the same tasks
with the same titles and descriptions, and the storage slot untouched. -/
theorem editTask_blank_title (app : TodoApp) (taskId : String)
    (newTitle newDescription : Option String)
    (hblank : newTitle = none ∨ ∃ title, newTitle = some title ∧ trim title = "") :
    editTask app taskId newTitle newDescription = app := by
  unfold editTask
  split
  · rfl
  · rcases hblank with hn | ⟨title, ht, hb⟩
    · simp [hn]
    · simp [ht, hb, truthy]

/-- C6 at the task titled `Report`: the empty title, a title of blanks and a
cancelled prompt all leave its title `Report`. -/
theorem editTask_blank_title_witness :
    editTask reportApp "1" (some "") (some "text") = reportApp ∧
    editTask reportApp "1" (some "  ") none = reportApp ∧
    editTask reportApp "1" none none = reportApp ∧
    reportApp.tasks.map (fun t => t.title) = ["Report"] :=
  ⟨editTask_blank_title reportApp "1" (some "") (some "text")
      (Or.inr ⟨"", rfl, by decide⟩),
    editTask_blank_title reportApp "1" (some "  ") none (Or.inr ⟨"  ", rfl, by decide⟩),
    editTask_blank_title reportApp "1" none none (Or.inl rfl),
    by decide⟩

/-! ## C7: loading -/

/-- C7, as stated, fails. The stored text `{` is not JSON: `JSON.parse` throws,
nothing catches the exception, and `loadTasks` throws instead of returning an
empty collection. -/
theorem loadTasks_counterexample :
    exampleParse "\x7b" = none ∧
    loadTasks exampleParse (some "\x7b") = Except.error JSError.syntaxError ∧
    loadTasks exampleParse (some "\x7b") ≠ Except.ok [] :=
  ⟨by decide, rfl, fun hok => by cases hok⟩

/-- C7, amended. For a stored value that `JSON.parse` rejects, `loadTasks`
returns an empty collection when the value is the empty text, which it never
hands to `JSON.parse`, and throws the `SyntaxError` when the value is any other
text. -/
theorem loadTasks_malformed (parse : String → Option (List Task)) (saved : String)
    (hparse : parse saved = none) :
    (saved = "" → loadTasks parse (some saved) = Except.ok []) ∧
    (saved ≠ "" → loadTasks parse (some saved) = Except.error JSError.syntaxError) := by
  constructor
  · intro he
    simp [loadTasks, truthyOpt, truthy, he]
  · intro hne
    simp [loadTasks, truthyOpt, truthy, hne, hparse]

/-- The amended C7 at the stored text `not json`. -/
theorem loadTasks_malformed_witness :
    ("not json" = "" → loadTasks exampleParse (some "not json") = Except.ok []) ∧
    ("not json" ≠ "" →
      loadTasks exampleParse (some "not json") = Except.error JSError.syntaxError) :=
  loadTasks_malformed exampleParse "not json" (by decide)

/-! ## C8: toggling twice -/

theorem updateFirst_twice (p : Task → Bool) (f : Task → Task) (hp : ∀ t, p (f t) = p t)
    (hf : ∀ t, f (f t) = t) (ts : List Task) :
    updateFirst p f (updateFirst p f ts) = ts := by
  induction ts with
  | nil => rfl
  | cons t ts ih =>
    by_cases ht : p t = true
    · simp [updateFirst, ht, hp, hf]
    · simp [updateFirst, ht, ih]

theorem updateFirst_of_find_none (p : Task → Bool) (f : Task → Task) (ts : List Task)
    (hnone : ts.find? p = none) : updateFirst p f ts = ts := by
  induction ts with
  | nil => rfl
  | cons t ts ih =>
    by_cases ht : p t = true
    · simp [List.find?_cons, ht] at hnone
    · simp only [List.find?_cons, ht] at hnone
      simp [updateFirst, ht, ih hnone]

theorem toggleTask_tasks (app : TodoApp) (taskId : String) :
    (toggleTask app taskId).tasks
      = updateFirst (fun t => t.id == taskId)
          (fun task => { task with completed := !task.completed }) app.tasks := by
  unfold toggleTask
  split
  · rfl
  · rename_i hnone
    exact (updateFirst_of_find_none _ _ _ hnone).symm

/-- C8. For every collection and every id, two calls of `toggleTask(id)` in a row
leave the collection equal to what it was, whether no task, one task or several
tasks have that id; so the `completed` flag of the task with that id is back at
its prior value. One call flips the flag of the first task with that id. -/
theorem toggleTask_twice (app : TodoApp) (taskId : String) :
    (toggleTask (toggleTask app taskId) taskId).tasks = app.tasks ∧
    (toggleTask app taskId).tasks
      = updateFirst (fun t => t.id == taskId)
          (fun task => { task with completed := !task.completed }) app.tasks := by
  refine ⟨?_, toggleTask_tasks app taskId⟩
  rw [toggleTask_tasks, toggleTask_tasks]
  exact updateFirst_twice (fun t => t.id == taskId)
    (fun task => { task with completed := !task.completed }) (fun _ => rfl)
    (fun t => by cases t; simp) app.tasks

/-! ## C9: deleting an unknown id -/

/-- C9. For every collection and every id that no task of it has, `deleteTask(id)`
returns normally, with the confirmation accepted or declined, and leaves the
collection as it was: the same tasks in the same order with the same fields. -/
theorem deleteTask_unknown (app : TodoApp) (taskId : String) (confirmed : Bool)
    (hid : ∀ t ∈ app.tasks, t.id ≠ taskId) :
    (deleteTask app taskId confirmed).tasks = app.tasks := by
  unfold deleteTask
  cases confirmed
  · rfl
  · simp only [if_true, saveTasks]
    rw [List.filter_eq_self]
    intro t ht
    simpa using hid t ht

/-- C9 at the application that holds task `1` only, deleting id `2`. -/
theorem deleteTask_unknown_witness :
    (deleteTask reportApp "2" true).tasks = reportApp.tasks ∧
    (deleteTask reportApp "2" false).tasks = reportApp.tasks :=
  ⟨deleteTask_unknown reportApp "2" true (by decide),
    deleteTask_unknown reportApp "2" false (by decide)⟩

/-! ## C10: the deadline label -/

theorem ceilDays_eq_exactDays (deadline now : Int) :
    ceilDays (deadline - now) = exactDays deadline now := by
  unfold ceilDays exactDays msPerDay
  have hfloor := Rat.floor_intCast_div_natCast (-(deadline - now)) 86400000
  have hq : ((deadline - now : Int) : ℚ) / (24 * 60 * 60 * 1000)
      = -(((-(deadline - now) : Int) : ℚ) / ((86400000 : Nat) : ℚ)) := by
    push_cast
    ring
  rw [hq, Int.ceil_neg, hfloor]
  norm_num

/-- C10. For a deadline text that the `Date` reader reads as the instant
`instant`, and every current instant `now`, with `d = ceil((instant - now) / 24h)`
in exact arithmetic, `formatDeadline` returns the overdue label with `|d|` when
`d < 0`, the due-today label when `d = 0`, the due-tomorrow label when `d = 1`
and the due-in-`d`-days label otherwise. For a deadline at least 24h and less
than 48h before `now` the label is that of one day overdue. -/
theorem formatDeadline_label (h : Host) (now : Int) (deadline : String) (instant : Int)
    (hdate : h.dateParse deadline = some instant) :
    (exactDays instant now < 0 → formatDeadline h now deadline
      = "已过期 " ++ natToString (exactDays instant now).natAbs ++ " 天") ∧
    (exactDays instant now = 0 → formatDeadline h now deadline = "今天到期") ∧
    (exactDays instant now = 1 → formatDeadline h now deadline = "明天到期") ∧
    (1 < exactDays instant now → formatDeadline h now deadline
      = intToString (exactDays instant now) ++ " 天后到期") ∧
    (24 * 60 * 60 * 1000 ≤ now - instant → now - instant < 48 * 60 * 60 * 1000 →
      formatDeadline h now deadline = "已过期 1 天") := by
  have hd := ceilDays_eq_exactDays instant now
  have hfmt : formatDeadline h now deadline
      = if exactDays instant now < 0 then
          "已过期 " ++ natToString (exactDays instant now).natAbs ++ " 天"
        else if exactDays instant now = 0 then "今天到期"
        else if exactDays instant now = 1 then "明天到期"
        else intToString (exactDays instant now) ++ " 天后到期" := by
    simp only [formatDeadline, hdate, hd]
  refine ⟨fun h1 => ?_, fun h1 => ?_, fun h1 => ?_, fun h1 => ?_, fun h1 h2 => ?_⟩
  · rw [hfmt, if_pos h1]
  · rw [hfmt, if_neg (by omega), if_pos h1]
  · rw [hfmt, if_neg (by omega), if_neg (by omega), if_pos h1]
  · rw [hfmt, if_neg (by omega), if_neg (by omega), if_neg (by omega)]
  · have hm : exactDays instant now = -1 := by
      rw [← hd]
      unfold ceilDays msPerDay
      omega
    rw [hfmt, hm]
    decide

/-- C10 at a deadline of 2025-01-01 seen at noon of 2025-01-02, 36 hours later. -/
theorem formatDeadline_label_witness :
    formatDeadline exampleHost 1735819200000 "2025-01-01" = "已过期 1 天" :=
  (formatDeadline_label exampleHost 1735819200000 "2025-01-01" 1735689600000
    (by decide)).2.2.2.2 (by decide) (by decide)

end WebProject
